import Mathlib

/-!
Verification of the version/changelog engine of version_manager.py.

Documents and file contents are modelled as lists of characters. The
on-disk state is a record of the three managed files (VERSION,
CHANGELOG.md, pyproject.toml), each an optional content (none means the
file does not exist). Every operation of the Python class VersionManager
that the claims mention is translated into a pure function over this
state; fallible operations return Except values.
-/

namespace VersionManager

/-- Whitespace characters recognized by Python str.strip and by the
regex class \s (space, tab, newline, carriage return, vertical tab,
form feed). -/
def isPySpace (c : Char) : Bool :=
  c == ' ' || c == '\t' || c == '\n' || c == '\r' || c == '\x0b' || c == '\x0c'

/-- ASCII decimal digit test, modelling the regex class \d as used on
version strings. -/
def isDigitChar (c : Char) : Bool :=
  48 ≤ c.toNat && c.toNat ≤ 57

/-- Numeric value of a digit character. -/
def digitVal (c : Char) : Nat := c.toNat - 48

/-- Digit character of a value below ten. -/
def digitChar (d : Nat) : Char := Char.ofNat (48 + d)

/-- Decimal rendering of a natural number, fuel-based so that it
reduces by kernel evaluation. Models Python str formatting of a
non-negative int. -/
def toDecimalAux : Nat → Nat → List Char
  | 0, _ => []
  | fuel + 1, n =>
    if n < 10 then [digitChar n]
    else toDecimalAux fuel (n / 10) ++ [digitChar (n % 10)]

/-- Decimal rendering of a natural number. -/
def toDecimal (n : Nat) : List Char := toDecimalAux (n + 1) n

/-- Value of a list of digit characters, most significant first.
Models int() applied to a digit string. -/
def digitsToNat (ds : List Char) : Nat :=
  ds.foldl (fun a c => 10 * a + digitVal c) 0

/-- Python str.strip: remove leading and trailing whitespace. -/
def stripText (cs : List Char) : List Char :=
  ((cs.dropWhile isPySpace).reverse.dropWhile isPySpace).reverse

/-- The string "major.minor.patch", as written by the f-string in
set_version and bump_version. -/
def renderVersion (a b c : Nat) : List Char :=
  toDecimal a ++ ('.' :: (toDecimal b ++ ('.' :: toDecimal c)))

/-- The anchored regex match of the pattern (digits, dot, digits, dot,
digits, end of input) used by get_current_version, the set command and
the interactive set handler; returns the three captured numbers. -/
def matchVersion (cs : List Char) : Option (Nat × Nat × Nat) :=
  if cs.takeWhile isDigitChar = [] then none else
  match cs.dropWhile isDigitChar with
  | '.' :: r2 =>
    if r2.takeWhile isDigitChar = [] then none else
    match r2.dropWhile isDigitChar with
    | '.' :: r4 =>
      if r4.takeWhile isDigitChar = [] then none else
      if r4.dropWhile isDigitChar = [] then
        some (digitsToNat (cs.takeWhile isDigitChar),
              digitsToNat (r2.takeWhile isDigitChar),
              digitsToNat (r4.takeWhile isDigitChar))
      else none
    | _ => none
  | _ => none

/- ### Elementary lemmas about digits and decimal rendering -/

theorem digitVal_digitChar : ∀ d, d < 10 → digitVal (digitChar d) = d := by decide

theorem isDigitChar_digitChar : ∀ d, d < 10 → isDigitChar (digitChar d) = true := by decide

theorem isPySpace_digitChar : ∀ d, d < 10 → isPySpace (digitChar d) = false := by decide

theorem toDecimalAux_ne_nil : ∀ fuel n, n < fuel → toDecimalAux fuel n ≠ [] := by
  intro fuel
  induction fuel with
  | zero => intro n h; omega
  | succ f ih =>
    intro n h
    by_cases h10 : n < 10
    · simp [toDecimalAux, h10]
    · have : toDecimalAux (f + 1) n = toDecimalAux f (n / 10) ++ [digitChar (n % 10)] := by
        simp [toDecimalAux, h10]
      rw [this]
      simp

theorem toDecimalAux_digits : ∀ fuel n, n < fuel →
    ∀ c ∈ toDecimalAux fuel n, isDigitChar c = true := by
  intro fuel
  induction fuel with
  | zero => intro n h; omega
  | succ f ih =>
    intro n h c hc
    by_cases h10 : n < 10
    · simp [toDecimalAux, h10] at hc
      subst hc
      exact isDigitChar_digitChar n h10
    · have heq : toDecimalAux (f + 1) n = toDecimalAux f (n / 10) ++ [digitChar (n % 10)] := by
        simp [toDecimalAux, h10]
      rw [heq, List.mem_append] at hc
      rcases hc with hc | hc
      · have hlt : n / 10 < f := by
          have h1 : n / 10 < n := Nat.div_lt_self (by omega) (by omega)
          omega
        exact ih (n / 10) hlt c hc
      · simp at hc
        subst hc
        exact isDigitChar_digitChar (n % 10) (Nat.mod_lt n (by omega))

theorem digitsToNat_append_one (xs : List Char) (d : Char) :
    digitsToNat (xs ++ [d]) = 10 * digitsToNat xs + digitVal d := by
  simp [digitsToNat, List.foldl_append]

theorem digitsToNat_toDecimalAux : ∀ fuel n, n < fuel →
    digitsToNat (toDecimalAux fuel n) = n := by
  intro fuel
  induction fuel with
  | zero => intro n h; omega
  | succ f ih =>
    intro n h
    by_cases h10 : n < 10
    · simp [toDecimalAux, h10, digitsToNat, digitVal_digitChar n h10]
    · have heq : toDecimalAux (f + 1) n = toDecimalAux f (n / 10) ++ [digitChar (n % 10)] := by
        simp [toDecimalAux, h10]
      have hlt : n / 10 < f := by
        have h1 : n / 10 < n := Nat.div_lt_self (by omega) (by omega)
        omega
      rw [heq, digitsToNat_append_one, ih (n / 10) hlt,
        digitVal_digitChar (n % 10) (Nat.mod_lt n (by omega))]
      omega

theorem toDecimal_ne_nil (n : Nat) : toDecimal n ≠ [] :=
  toDecimalAux_ne_nil (n + 1) n (Nat.lt_succ_self n)

theorem toDecimal_digits (n : Nat) : ∀ c ∈ toDecimal n, isDigitChar c = true :=
  toDecimalAux_digits (n + 1) n (Nat.lt_succ_self n)

theorem digitsToNat_toDecimal (n : Nat) : digitsToNat (toDecimal n) = n :=
  digitsToNat_toDecimalAux (n + 1) n (Nat.lt_succ_self n)

/- ### List scanning helpers -/

theorem takeWhile_append_all (p : Char → Bool) (xs ys : List Char)
    (h : ∀ x ∈ xs, p x = true) :
    (xs ++ ys).takeWhile p = xs ++ ys.takeWhile p := by
  induction xs with
  | nil => simp
  | cons c cs ih =>
    have hc : p c = true := h c (by simp)
    simp only [List.cons_append, List.takeWhile_cons_of_pos hc, List.cons_append]
    rw [ih (fun x hx => h x (by simp [hx]))]

theorem dropWhile_append_all (p : Char → Bool) (xs ys : List Char)
    (h : ∀ x ∈ xs, p x = true) :
    (xs ++ ys).dropWhile p = ys.dropWhile p := by
  induction xs with
  | nil => simp
  | cons c cs ih =>
    have hc : p c = true := h c (by simp)
    simp only [List.cons_append, List.dropWhile_cons_of_pos hc]
    exact ih (fun x hx => h x (by simp [hx]))

theorem takeWhile_all (p : Char → Bool) (xs : List Char)
    (h : ∀ x ∈ xs, p x = true) : xs.takeWhile p = xs := by
  have := takeWhile_append_all p xs [] h
  simpa using this

theorem dropWhile_all (p : Char → Bool) (xs : List Char)
    (h : ∀ x ∈ xs, p x = true) : xs.dropWhile p = [] := by
  have := dropWhile_append_all p xs [] h
  simpa using this

theorem dropWhile_no_head (p : Char → Bool) (xs : List Char)
    (h : ∀ x ∈ xs, p x = false) : xs.dropWhile p = xs := by
  cases xs with
  | nil => simp
  | cons c cs =>
    have hc : ¬ p c = true := by simp [h c (by simp)]
    exact List.dropWhile_cons_of_neg hc

/- ### Stripping and matching a rendered version -/

theorem stripText_no_space (xs : List Char) (hne : xs ≠ [])
    (hall : ∀ x ∈ xs, isPySpace x = false) :
    stripText (xs ++ ['\n']) = xs := by
  unfold stripText
  have h1 : (xs ++ ['\n']).dropWhile isPySpace = xs ++ ['\n'] := by
    cases xs with
    | nil => exact absurd rfl hne
    | cons c cs =>
      have hc : ¬ isPySpace c = true := by simp [hall c (by simp)]
      exact List.dropWhile_cons_of_neg hc
  rw [h1, List.reverse_append]
  have h2 : isPySpace '\n' = true := by decide
  simp only [List.reverse_cons, List.reverse_nil, List.nil_append, List.singleton_append,
    List.dropWhile_cons_of_pos h2]
  have h3 : xs.reverse.dropWhile isPySpace = xs.reverse := by
    apply dropWhile_no_head
    intro x hx
    exact hall x (List.mem_reverse.mp hx)
  rw [h3, List.reverse_reverse]

theorem isPySpace_of_digit (c : Char) (h : isDigitChar c = true) : isPySpace c = false := by
  cases hs : isPySpace c with
  | false => rfl
  | true =>
    exfalso
    simp only [isPySpace, Bool.or_eq_true, beq_iff_eq] at hs
    simp only [isDigitChar, Bool.and_eq_true, decide_eq_true_eq] at h
    rcases hs with ((((hs | hs) | hs) | hs) | hs) | hs <;> subst hs <;> revert h <;> decide

theorem matchVersion_render (a b c : Nat) :
    matchVersion (renderVersion a b c) = some (a, b, c) := by
  have hdotn : ¬ isDigitChar '.' = true := by decide
  have htA : (toDecimal a ++ ('.' :: (toDecimal b ++ ('.' :: toDecimal c)))).takeWhile isDigitChar
      = toDecimal a := by
    rw [takeWhile_append_all isDigitChar _ _ (toDecimal_digits a),
      List.takeWhile_cons_of_neg hdotn, List.append_nil]
  have hdA : (toDecimal a ++ ('.' :: (toDecimal b ++ ('.' :: toDecimal c)))).dropWhile isDigitChar
      = '.' :: (toDecimal b ++ ('.' :: toDecimal c)) := by
    rw [dropWhile_append_all isDigitChar _ _ (toDecimal_digits a),
      List.dropWhile_cons_of_neg hdotn]
  have htB : (toDecimal b ++ ('.' :: toDecimal c)).takeWhile isDigitChar = toDecimal b := by
    rw [takeWhile_append_all isDigitChar _ _ (toDecimal_digits b),
      List.takeWhile_cons_of_neg hdotn, List.append_nil]
  have hdB : (toDecimal b ++ ('.' :: toDecimal c)).dropWhile isDigitChar
      = '.' :: toDecimal c := by
    rw [dropWhile_append_all isDigitChar _ _ (toDecimal_digits b),
      List.dropWhile_cons_of_neg hdotn]
  have htC : (toDecimal c).takeWhile isDigitChar = toDecimal c :=
    takeWhile_all isDigitChar _ (toDecimal_digits c)
  have hdC : (toDecimal c).dropWhile isDigitChar = [] :=
    dropWhile_all isDigitChar _ (toDecimal_digits c)
  unfold matchVersion renderVersion
  simp only [htA, hdA, htB, hdB, htC, hdC, if_neg (toDecimal_ne_nil a),
    if_neg (toDecimal_ne_nil b), if_neg (toDecimal_ne_nil c), if_pos rfl, if_true,
    digitsToNat_toDecimal]

theorem renderVersion_ne_nil (a b c : Nat) : renderVersion a b c ≠ [] := by
  unfold renderVersion
  intro h
  exact toDecimal_ne_nil a (List.append_eq_nil.mp h).1

theorem renderVersion_no_space (a b c : Nat) :
    ∀ x ∈ renderVersion a b c, isPySpace x = false := by
  intro x hx
  unfold renderVersion at hx
  have hdot : isPySpace '.' = false := by decide
  simp only [List.mem_append, List.mem_cons] at hx
  rcases hx with hx | hx | hx | hx | hx
  · exact isPySpace_of_digit x (toDecimal_digits a x hx)
  · rw [hx]; exact hdot
  · exact isPySpace_of_digit x (toDecimal_digits b x hx)
  · rw [hx]; exact hdot
  · exact isPySpace_of_digit x (toDecimal_digits c x hx)

/- ### Changelog document operations (update_changelog) -/

/-- Python str.startswith: the first argument is the pattern. -/
def beginsWith : List Char → List Char → Bool
  | [], _ => true
  | _ :: _, [] => false
  | p :: ps, c :: cs => p == c && beginsWith ps cs

/-- Python content.split(pat, 1): split at the first occurrence of the
pattern, returning the text before and the text after it, or none when
the pattern does not occur (in which case Python would return a single
part). -/
def splitFirst (pat : List Char) : List Char → Option (List Char × List Char)
  | [] => none
  | c :: cs =>
    if beginsWith pat (c :: cs) then some ([], (c :: cs).drop pat.length)
    else
      match splitFirst pat cs with
      | some (p, r) => some (c :: p, r)
      | none => none

/-- Python re.search with a literal pattern: index of the first
occurrence of the pattern, if any. -/
def findIdx (pat : List Char) : List Char → Option Nat
  | [] => none
  | c :: cs =>
    if beginsWith pat (c :: cs) then some 0
    else (findIdx pat cs).map (fun n => n + 1)

/-- Python content.split with a newline separator, keeping empty parts. -/
def splitOnNl : List Char → List (List Char)
  | [] => [[]]
  | c :: cs =>
    if c = '\n' then [] :: splitOnNl cs
    else
      match splitOnNl cs with
      | l :: ls => (c :: l) :: ls
      | [] => [[c]]

/-- Python "\n".join(lines). -/
def joinNl (lines : List (List Char)) : List Char :=
  List.intercalate ['\n'] lines

/-- Python list.insert(i, x). -/
def insertAt : Nat → List Char → List (List Char) → List (List Char)
  | 0, x, ls => x :: ls
  | _ + 1, x, [] => [x]
  | n + 1, x, l :: ls => l :: insertAt n x ls

/-- The loop condition of the no-unreleased branch: the line starts
with two hash marks and contains an opening bracket. -/
def headingLinePred (line : List Char) : Bool :=
  beginsWith (("##").toList) line && line.contains '['

/-- Index of the first line satisfying headingLinePred, as computed by
the for loop with break in update_changelog. -/
def firstHeadingIdx : List (List Char) → Option Nat
  | [] => none
  | l :: ls =>
    if headingLinePred l then some 0
    else (firstHeadingIdx ls).map (fun n => n + 1)

/-- The literal unreleased heading. -/
def unreleasedHeading : List Char := ("## [Unreleased]").toList

/-- The literal pattern of the regex searching for the start of the
next section. -/
def nextSectionPat : List Char := ("\n## [").toList

/-- The header written when CHANGELOG.md does not exist, up to and
including the unreleased heading and its newline. -/
def changelogHeader : List Char :=
  ("# Changelog\n\nAll notable changes to this project will be documented in this file.\n\nThe format is based on [Keep a Changelog](https://keepachangelog.com/en/1.0.0/),\nand this project adheres to [Semantic Versioning](https://semver.org/spec/v2.0.0.html).\n\n## [Unreleased]\n").toList

/-- The new entry block built by update_changelog from the version
string, the date string and the message. -/
def newEntryText (vstr date entry : List Char) : List Char :=
  ("\n## [").toList ++ vstr ++ ("] - ").toList ++ date
    ++ ("\n\n### Changed\n- ").toList ++ entry ++ ['\n']

/-- The document produced by update_changelog: old is the previous
content of CHANGELOG.md (none when the file does not exist), vstr the
rendered version, date the formatted current date, entry the message.
Translated branch by branch from VersionManager.update_changelog. -/
def update_changelog_text (old : Option (List Char)) (vstr date entry : List Char) :
    List Char :=
  let ne := newEntryText vstr date entry
  match old with
  | none => changelogHeader ++ ne ++ ['\n']
  | some content =>
    match splitFirst unreleasedHeading content with
    | some (p, after) =>
      match findIdx nextSectionPat after with
      | some i => p ++ unreleasedHeading ++ after.take i ++ ne ++ after.drop i
      | none => p ++ unreleasedHeading ++ after ++ ne
    | none =>
      match firstHeadingIdx (splitOnNl content) with
      | some i =>
        if 0 < i then joinNl (insertAt i (stripText ne) (splitOnNl content))
        else content ++ ne
      | none => content ++ ne

/- ### First-occurrence lemmas for splitFirst and findIdx -/

theorem beginsWith_append_self (xs ys : List Char) : beginsWith xs (xs ++ ys) = true := by
  induction xs with
  | nil => rfl
  | cons c cs ih => simp [beginsWith, ih]

theorem take_len_append (xs ys : List Char) : (xs ++ ys).take xs.length = xs := by
  induction xs with
  | nil => rfl
  | cons c cs ih => simp [ih]

theorem drop_len_append (xs ys : List Char) : (xs ++ ys).drop xs.length = ys := by
  induction xs with
  | nil => rfl
  | cons c cs ih => simp [ih]

theorem splitFirst_first (pat p rest : List Char) (hpat : pat ≠ [])
    (h : ∀ k, k < p.length → beginsWith pat ((p ++ (pat ++ rest)).drop k) = false) :
    splitFirst pat (p ++ (pat ++ rest)) = some (p, rest) := by
  induction p with
  | nil =>
    cases pat with
    | nil => exact absurd rfl hpat
    | cons a ps =>
      simp only [List.nil_append]
      rw [List.cons_append]
      unfold splitFirst
      rw [← List.cons_append, beginsWith_append_self]
      simp only [if_true]
      rw [drop_len_append]
  | cons c cs ih =>
    have h0 : beginsWith pat (c :: (cs ++ (pat ++ rest))) = false := by
      have := h 0 (by simp)
      simpa using this
    simp only [List.cons_append] at h0 ⊢
    unfold splitFirst
    rw [h0]
    simp only [Bool.false_eq_true, if_false]
    rw [ih (fun k hk => by
      have := h (k + 1) (by simp; omega)
      simpa using this)]

theorem findIdx_first (pat p rest : List Char) (hpat : pat ≠ [])
    (h : ∀ k, k < p.length → beginsWith pat ((p ++ (pat ++ rest)).drop k) = false) :
    findIdx pat (p ++ (pat ++ rest)) = some p.length := by
  induction p with
  | nil =>
    cases pat with
    | nil => exact absurd rfl hpat
    | cons a ps =>
      simp only [List.nil_append]
      rw [List.cons_append]
      unfold findIdx
      rw [← List.cons_append, beginsWith_append_self]
      simp
  | cons c cs ih =>
    have h0 : beginsWith pat (c :: (cs ++ (pat ++ rest))) = false := by
      have := h 0 (by simp)
      simpa using this
    simp only [List.cons_append] at h0 ⊢
    unfold findIdx
    rw [h0]
    simp only [Bool.false_eq_true, if_false]
    rw [ih (fun k hk => by
      have := h (k + 1) (by simp; omega)
      simpa using this)]
    simp [List.length_cons]

/- ### The pyproject.toml version-field substitution (re.sub) -/

/-- Drop an exact literal from the front of the input, or fail. -/
def dropLit : List Char → List Char → Option (List Char)
  | [], cs => some cs
  | _ :: _, [] => none
  | p :: ps, c :: cs => if p == c then dropLit ps cs else none

/-- Characters allowed inside the quoted value (anything but a double
quote). -/
def notQuote (c : Char) : Bool := !(c == '"')

/-- The literal word starting the version-field pattern. -/
def versionWord : List Char := ("version").toList

/-- Require a given character at the front of the input and drop it. -/
def expectChar (ch : Char) : List Char → Option (List Char)
  | [] => none
  | c :: cs => if c == ch then some cs else none

/-- One attempted match of the regex (the word version, optional
whitespace, an equals sign, optional whitespace, a double-quoted run of
non-quote characters) at the front of the input; on success returns the
rest of the input after the match. -/
def matchVF (cs : List Char) : Option (List Char) :=
  (dropLit versionWord cs).bind fun r1 =>
  (expectChar '=' (r1.dropWhile isPySpace)).bind fun r2 =>
  (expectChar '"' (r2.dropWhile isPySpace)).bind fun r3 =>
  expectChar '"' (r3.dropWhile notQuote)

/-- The replacement text written for each match. -/
def vRepl (v : List Char) : List Char :=
  ("version = ").toList ++ '"' :: (v ++ ['"'])

/-- The canonical shape of a matched version field: the word version,
whitespace, equals, whitespace, then a double-quoted value free of
quotes. -/
def vMatch (sp1 sp2 inner : List Char) : List Char :=
  versionWord ++ (sp1 ++ ('=' :: (sp2 ++ ('"' :: (inner ++ ['"'])))))

theorem dropLit_self (lit rest : List Char) : dropLit lit (lit ++ rest) = some rest := by
  induction lit with
  | nil => rfl
  | cons c cs ih => simp [dropLit, ih]

theorem dropLit_length (lit : List Char) :
    ∀ cs r, dropLit lit cs = some r → r.length + lit.length = cs.length := by
  induction lit with
  | nil =>
    intro cs r h
    simp [dropLit] at h
    simp [h]
  | cons p ps ih =>
    intro cs r h
    cases cs with
    | nil => simp [dropLit] at h
    | cons c cs2 =>
      simp only [dropLit] at h
      by_cases hpc : p == c
      · rw [if_pos hpc] at h
        have := ih cs2 r h
        simp only [List.length_cons]
        omega
      · rw [if_neg hpc] at h
        exact absurd h (by simp)

theorem dropWhile_length_le (p : Char → Bool) (l : List Char) :
    (l.dropWhile p).length ≤ l.length := by
  induction l with
  | nil => simp
  | cons c cs ih =>
    by_cases hc : p c
    · rw [List.dropWhile_cons_of_pos hc]
      simp only [List.length_cons]
      omega
    · rw [List.dropWhile_cons_of_neg hc]

theorem expectChar_length (ch : Char) (cs r : List Char) (h : expectChar ch cs = some r) :
    r.length + 1 = cs.length := by
  cases cs with
  | nil => exact absurd h (by simp [expectChar])
  | cons c cs2 =>
    simp only [expectChar] at h
    by_cases hc : c == ch
    · rw [if_pos hc] at h
      simp only [Option.some.injEq] at h
      subst h
      simp
    · rw [if_neg hc] at h
      exact absurd h (by simp)

theorem expectChar_cons_self (ch : Char) (rest : List Char) :
    expectChar ch (ch :: rest) = some rest := by
  simp [expectChar]

theorem matchVF_lt (cs r : List Char) (h : matchVF cs = some r) : r.length < cs.length := by
  simp only [matchVF, Option.bind_eq_some] at h
  obtain ⟨r1, h1, r2, h2, r3, h3, h4⟩ := h
  have hlen1 : r1.length + 7 = cs.length := dropLit_length versionWord cs r1 h1
  have hlen2 : r2.length + 1 = (r1.dropWhile isPySpace).length :=
    expectChar_length '=' _ r2 h2
  have hd1 : (r1.dropWhile isPySpace).length ≤ r1.length := dropWhile_length_le isPySpace r1
  have hlen3 : r3.length + 1 = (r2.dropWhile isPySpace).length :=
    expectChar_length '"' _ r3 h3
  have hd2 : (r2.dropWhile isPySpace).length ≤ r2.length := dropWhile_length_le isPySpace r2
  have hlen4 : r.length + 1 = (r3.dropWhile notQuote).length :=
    expectChar_length '"' _ r h4
  have hd3 : (r3.dropWhile notQuote).length ≤ r3.length := dropWhile_length_le notQuote r3
  omega

theorem matchVF_nil : matchVF [] = none := by decide

/-- A canonically shaped version field followed by anything matches,
consuming exactly the field. -/
theorem matchVF_vMatch (sp1 sp2 inner rest : List Char)
    (h1 : ∀ x ∈ sp1, isPySpace x = true)
    (h2 : ∀ x ∈ sp2, isPySpace x = true)
    (h3 : ∀ x ∈ inner, notQuote x = true) :
    matchVF (vMatch sp1 sp2 inner ++ rest) = some rest := by
  have heqn : isPySpace '=' = false := by decide
  have hqn : isPySpace '"' = false := by decide
  have hqq : notQuote '"' = false := by decide
  unfold matchVF vMatch
  rw [List.append_assoc, dropLit_self]
  simp only [Option.some_bind]
  have hs1 : ((sp1 ++ ('=' :: (sp2 ++ ('"' :: (inner ++ ['"'])))) ++ rest)).dropWhile isPySpace
      = '=' :: ((sp2 ++ ('"' :: (inner ++ ['"']))) ++ rest) := by
    rw [List.append_assoc] at *
    rw [dropWhile_append_all isPySpace sp1 _ h1]
    rw [List.cons_append, List.dropWhile_cons_of_neg (by simp [heqn])]
  rw [hs1, expectChar_cons_self]
  simp only [Option.some_bind]
  have hs2 : ((sp2 ++ ('"' :: (inner ++ ['"']))) ++ rest).dropWhile isPySpace
      = '"' :: ((inner ++ ['"']) ++ rest) := by
    rw [List.append_assoc]
    rw [dropWhile_append_all isPySpace sp2 _ h2]
    rw [List.cons_append, List.dropWhile_cons_of_neg (by simp [hqn])]
  rw [hs2, expectChar_cons_self]
  simp only [Option.some_bind]
  have hs3 : ((inner ++ ['"']) ++ rest).dropWhile notQuote = '"' :: rest := by
    rw [List.append_assoc]
    rw [dropWhile_append_all notQuote inner _ h3]
    rw [List.singleton_append, List.dropWhile_cons_of_neg (by simp [hqq])]
  rw [hs3, expectChar_cons_self]

/-- Fuel-based scanner of re.sub for the version-field pattern: at each
position, if the pattern matches, emit the replacement and continue
after the match; otherwise copy one character. -/
def subVFAux (repl : List Char) : Nat → List Char → List Char
  | 0, cs => cs
  | fuel + 1, cs =>
    match matchVF cs with
    | some rest => repl ++ subVFAux repl fuel rest
    | none =>
      match cs with
      | [] => []
      | c :: cs2 => c :: subVFAux repl fuel cs2

/-- Python re.sub of the version-field pattern over the whole input. -/
def subVF (repl cs : List Char) : List Char := subVFAux repl cs.length cs

theorem subVFAux_nil (repl : List Char) (fuel : Nat) : subVFAux repl fuel [] = [] := by
  cases fuel with
  | zero => rfl
  | succ f => simp [subVFAux, matchVF_nil]

theorem subVFAux_irrel (repl : List Char) :
    ∀ f1 f2 cs, cs.length ≤ f1 → cs.length ≤ f2 →
      subVFAux repl f1 cs = subVFAux repl f2 cs := by
  intro f1
  induction f1 with
  | zero =>
    intro f2 cs hc1 _
    have : cs = [] := List.eq_nil_of_length_eq_zero (by omega)
    subst this
    rw [subVFAux_nil, subVFAux_nil]
  | succ a ih =>
    intro f2 cs hc1 hc2
    cases cs with
    | nil => rw [subVFAux_nil, subVFAux_nil]
    | cons c t =>
      cases f2 with
      | zero => simp at hc2
      | succ b =>
        cases hm : matchVF (c :: t) with
        | some rest =>
          have hlt := matchVF_lt (c :: t) rest hm
          simp only [List.length_cons] at hlt hc1 hc2
          simp only [subVFAux, hm]
          rw [ih b rest (by omega) (by omega)]
        | none =>
          simp only [List.length_cons] at hc1 hc2
          simp only [subVFAux, hm]
          rw [ih b t (by omega) (by omega)]

theorem subVF_match (repl cs rest : List Char) (h : matchVF cs = some rest) :
    subVF repl cs = repl ++ subVF repl rest := by
  cases cs with
  | nil => rw [matchVF_nil] at h; exact absurd h (by simp)
  | cons c t =>
    have hlt := matchVF_lt (c :: t) rest h
    unfold subVF
    simp only [List.length_cons, subVFAux, h]
    rw [subVFAux_irrel repl t.length rest.length rest (by simp at hlt; omega) (by omega)]

theorem subVF_copy (repl : List Char) (c : Char) (t : List Char)
    (h : matchVF (c :: t) = none) :
    subVF repl (c :: t) = c :: subVF repl t := by
  unfold subVF
  simp only [List.length_cons, subVFAux, h]

theorem subVF_skip (repl xs ys : List Char)
    (h : ∀ k, k < xs.length → matchVF ((xs ++ ys).drop k) = none) :
    subVF repl (xs ++ ys) = xs ++ subVF repl ys := by
  induction xs with
  | nil => simp
  | cons c t ih =>
    have h0 : matchVF (c :: (t ++ ys)) = none := by
      have := h 0 (by simp)
      simpa using this
    rw [List.cons_append, subVF_copy repl c (t ++ ys) h0]
    rw [ih (fun k hk => by
      have := h (k + 1) (by simp; omega)
      simpa using this)]
    simp

theorem subVF_id (repl xs : List Char)
    (h : ∀ k, k < xs.length → matchVF (xs.drop k) = none) :
    subVF repl xs = xs := by
  induction xs with
  | nil => rfl
  | cons c t ih =>
    have h0 : matchVF (c :: t) = none := by
      have := h 0 (by simp)
      simpa using this
    rw [subVF_copy repl c t h0]
    rw [ih (fun k hk => by
      have := h (k + 1) (by simp; omega)
      simpa using this)]

/- ### The on-disk state and the VersionManager operations -/

/-- The three files managed by VersionManager; none means the file does
not exist. -/
structure FsState where
  versionFile : Option (List Char)
  changelogFile : Option (List Char)
  pyprojectFile : Option (List Char)
deriving DecidableEq

/-- VersionManager.get_current_version: parse the VERSION file with the
strict anchored pattern after stripping; default to 0.1.0 when the file
is missing or the content does not match. -/
def get_current_version (s : FsState) : Nat × Nat × Nat :=
  match s.versionFile with
  | none => (0, 1, 0)
  | some content =>
    match matchVersion (stripText content) with
    | some t => t
    | none => (0, 1, 0)

/-- Whether get_current_version prints its invalid-format warning: this
happens exactly when the file exists and its stripped content does not
match the pattern (translated from the else branch of the same Python
function; the missing-file branch returns silently). -/
def get_current_version_warns (s : FsState) : Bool :=
  match s.versionFile with
  | none => false
  | some content => (matchVersion (stripText content)).isNone

/-- VersionManager.set_version: write the rendered version plus a
newline to the VERSION file, then, if pyproject.toml exists, rewrite
every occurrence of the version-field pattern in it. -/
def set_version (s : FsState) (a b c : Nat) : FsState :=
  let vstr := renderVersion a b c
  let s1 : FsState := { s with versionFile := some (vstr ++ ['\n']) }
  match s1.pyprojectFile with
  | none => s1
  | some content => { s1 with pyprojectFile := some (subVF (vRepl vstr) content) }

/-- VersionManager.update_changelog as a state operation: always
rewrites CHANGELOG.md with the updated document. -/
def update_changelog (s : FsState) (a b c : Nat) (date entry : List Char) : FsState :=
  let doc := update_changelog_text s.changelogFile (renderVersion a b c) date entry
  { s with changelogFile := some doc }

/-- The error raised by bump_version on an invalid bump type. -/
inductive BumpErr where
  | invalidBumpType (t : List Char)
deriving DecidableEq

/-- The conditional changelog step of bump_version: the changelog is
updated only when a message is present and truthy (Python
if changelog_entry). -/
def applyChangelog (s : FsState) (a b c : Nat) (date : List Char)
    (entry : Option (List Char)) : FsState :=
  match entry with
  | none => s
  | some e => if e = [] then s else update_changelog s a b c date e

/-- VersionManager.bump_version: read the current version, raise on an
invalid bump type before any write, otherwise persist the bumped
version, optionally update the changelog, and return the new triple. -/
def bump_version (s : FsState) (t : List Char) (entry : Option (List Char))
    (date : List Char) : Except BumpErr (FsState × (Nat × Nat × Nat)) :=
  let cur := get_current_version s
  if t = ("major").toList then
    let s1 := applyChangelog (set_version s (cur.1 + 1) 0 0) (cur.1 + 1) 0 0 date entry
    Except.ok (s1, (cur.1 + 1, 0, 0))
  else if t = ("minor").toList then
    let s1 := applyChangelog (set_version s cur.1 (cur.2.1 + 1) 0) cur.1 (cur.2.1 + 1) 0
      date entry
    Except.ok (s1, (cur.1, cur.2.1 + 1, 0))
  else if t = ("patch").toList then
    let s1 := applyChangelog (set_version s cur.1 cur.2.1 (cur.2.2 + 1)) cur.1 cur.2.1
      (cur.2.2 + 1) date entry
    Except.ok (s1, (cur.1, cur.2.1, cur.2.2 + 1))
  else
    Except.error (BumpErr.invalidBumpType t)

/-- Rejection causes of the set command in main (each exits with
status one). -/
inductive CliErr where
  | missingArg
  | badFormat
deriving DecidableEq

/-- The set branch of main: a missing or falsy (empty) argument is
rejected, then the argument is validated against the strict triple
pattern; only on success is set_version invoked. -/
def cli_set (s : FsState) (arg : Option (List Char)) : Except CliErr FsState :=
  match arg with
  | none => Except.error CliErr.missingArg
  | some a =>
    if a = [] then Except.error CliErr.missingArg
    else
      match matchVersion a with
      | some (x, y, z) => Except.ok (set_version s x y z)
      | none => Except.error CliErr.badFormat

/- ### Projection lemmas for the state operations -/

theorem set_version_versionFile (s : FsState) (a b c : Nat) :
    (set_version s a b c).versionFile = some (renderVersion a b c ++ ['\n']) := by
  unfold set_version
  cases s.pyprojectFile <;> rfl

theorem set_version_changelogFile (s : FsState) (a b c : Nat) :
    (set_version s a b c).changelogFile = s.changelogFile := by
  unfold set_version
  cases s.pyprojectFile <;> rfl

theorem update_changelog_versionFile (s : FsState) (a b c : Nat) (date entry : List Char) :
    (update_changelog s a b c date entry).versionFile = s.versionFile := rfl

theorem applyChangelog_versionFile (s : FsState) (a b c : Nat) (date : List Char)
    (entry : Option (List Char)) :
    (applyChangelog s a b c date entry).versionFile = s.versionFile := by
  cases entry with
  | none => rfl
  | some e =>
    by_cases he : e = []
    · simp only [applyChangelog, if_pos he]
    · simp only [applyChangelog, if_neg he]
      exact update_changelog_versionFile s a b c date e

theorem update_changelog_pyprojectFile (s : FsState) (a b c : Nat) (date entry : List Char) :
    (update_changelog s a b c date entry).pyprojectFile = s.pyprojectFile := rfl

theorem applyChangelog_empty (s : FsState) (a b c : Nat) (d : List Char)
    (e : Option (List Char)) (he : e = none ∨ e = some []) :
    applyChangelog s a b c d e = s := by
  rcases he with he | he <;> subst he
  · rfl
  · simp [applyChangelog]

theorem bump_version_major (s : FsState) (e : Option (List Char)) (d : List Char) :
    bump_version s (("major").toList) e d =
      Except.ok (applyChangelog (set_version s ((get_current_version s).1 + 1) 0 0)
        ((get_current_version s).1 + 1) 0 0 d e, ((get_current_version s).1 + 1, 0, 0)) := rfl

theorem bump_version_minor (s : FsState) (e : Option (List Char)) (d : List Char) :
    bump_version s (("minor").toList) e d =
      Except.ok (applyChangelog
        (set_version s (get_current_version s).1 ((get_current_version s).2.1 + 1) 0)
        (get_current_version s).1 ((get_current_version s).2.1 + 1) 0 d e,
        ((get_current_version s).1, (get_current_version s).2.1 + 1, 0)) := rfl

theorem bump_version_patch (s : FsState) (e : Option (List Char)) (d : List Char) :
    bump_version s (("patch").toList) e d =
      Except.ok (applyChangelog
        (set_version s (get_current_version s).1 (get_current_version s).2.1
          ((get_current_version s).2.2 + 1))
        (get_current_version s).1 (get_current_version s).2.1
        ((get_current_version s).2.2 + 1) d e,
        ((get_current_version s).1, (get_current_version s).2.1,
          (get_current_version s).2.2 + 1)) := rfl

/- ### Claims about the version store -/

/-- Claim C4: for every state whose current version reads as the triple
(a, b, c), bumping major yields (a + 1, 0, 0), bumping minor yields
(a, b + 1, 0) and bumping patch yields (a, b, c + 1); in each case the
returned state has the new triple persisted (with trailing newline) in
the VERSION file. -/
theorem c4_bump_arithmetic (s : FsState) (a b c : Nat) (e : Option (List Char))
    (d : List Char) (h : get_current_version s = (a, b, c)) :
    (∃ s1, bump_version s (("major").toList) e d = Except.ok (s1, (a + 1, 0, 0)) ∧
      s1.versionFile = some (renderVersion (a + 1) 0 0 ++ ['\n'])) ∧
    (∃ s1, bump_version s (("minor").toList) e d = Except.ok (s1, (a, b + 1, 0)) ∧
      s1.versionFile = some (renderVersion a (b + 1) 0 ++ ['\n'])) ∧
    (∃ s1, bump_version s (("patch").toList) e d = Except.ok (s1, (a, b, c + 1)) ∧
      s1.versionFile = some (renderVersion a b (c + 1) ++ ['\n'])) := by
  have h1 : (get_current_version s).1 = a := by rw [h]
  have h2 : (get_current_version s).2.1 = b := by rw [h]
  have h3 : (get_current_version s).2.2 = c := by rw [h]
  refine ⟨⟨applyChangelog (set_version s (a + 1) 0 0) (a + 1) 0 0 d e, ?_, ?_⟩,
    ⟨applyChangelog (set_version s a (b + 1) 0) a (b + 1) 0 d e, ?_, ?_⟩,
    ⟨applyChangelog (set_version s a b (c + 1)) a b (c + 1) d e, ?_, ?_⟩⟩
  · rw [bump_version_major, h1]
  · rw [applyChangelog_versionFile, set_version_versionFile]
  · rw [bump_version_minor, h1, h2]
  · rw [applyChangelog_versionFile, set_version_versionFile]
  · rw [bump_version_patch, h1, h2, h3]
  · rw [applyChangelog_versionFile, set_version_versionFile]

/-- Witness for C4 at a concrete state storing version 1.2.3. -/
theorem c4_witness :
    get_current_version ⟨some (("1.2.3\n").toList), none, none⟩ = (1, 2, 3) ∧
    ((∃ s1, bump_version ⟨some (("1.2.3\n").toList), none, none⟩ (("major").toList) none []
        = Except.ok (s1, (2, 0, 0)) ∧ s1.versionFile = some (renderVersion 2 0 0 ++ ['\n'])) ∧
    (∃ s1, bump_version ⟨some (("1.2.3\n").toList), none, none⟩ (("minor").toList) none []
        = Except.ok (s1, (1, 3, 0)) ∧ s1.versionFile = some (renderVersion 1 3 0 ++ ['\n'])) ∧
    (∃ s1, bump_version ⟨some (("1.2.3\n").toList), none, none⟩ (("patch").toList) none []
        = Except.ok (s1, (1, 2, 4)) ∧ s1.versionFile = some (renderVersion 1 2 4 ++ ['\n']))) :=
  ⟨by decide, c4_bump_arithmetic ⟨some (("1.2.3\n").toList), none, none⟩ 1 2 3 none []
    (by decide)⟩

/-- Claim C5: persisting any triple and then reading the current
version returns exactly that triple. -/
theorem c5_set_get_roundtrip (s : FsState) (a b c : Nat) :
    get_current_version (set_version s a b c) = (a, b, c) := by
  simp only [get_current_version, set_version_versionFile,
    stripText_no_space _ (renderVersion_ne_nil a b c) (renderVersion_no_space a b c),
    matchVersion_render]

/-- Claim C6 counterexample: when the VERSION file is missing the code
returns the default triple but prints no warning (the warning is only
printed on the invalid-format branch, which requires the file to
exist), so the claim that a warning is reported in the missing-file
case is false. -/
theorem c6_counterexample :
    get_current_version ⟨none, none, none⟩ = (0, 1, 0) ∧
    get_current_version_warns ⟨none, none, none⟩ = false := ⟨rfl, rfl⟩

/-- Claim C6 as amended: on a missing VERSION file the default 0.1.0 is
returned silently; on existing but non-matching (after stripping)
content the default 0.1.0 is returned and the invalid-format warning is
reported; malformed content is never partially parsed. -/
theorem c6_amended_default_version (s : FsState) :
    (s.versionFile = none →
      get_current_version s = (0, 1, 0) ∧ get_current_version_warns s = false) ∧
    (∀ content, s.versionFile = some content → matchVersion (stripText content) = none →
      get_current_version s = (0, 1, 0) ∧ get_current_version_warns s = true) := by
  constructor
  · intro h
    simp [get_current_version, get_current_version_warns, h]
  · intro content hc hm
    simp [get_current_version, get_current_version_warns, hc, hm]

/-- Witness for the amended C6 at a concrete malformed VERSION file. -/
theorem c6_witness :
    matchVersion (stripText (("vX.Y").toList)) = none ∧
    (get_current_version ⟨some (("vX.Y").toList), none, none⟩ = (0, 1, 0) ∧
      get_current_version_warns ⟨some (("vX.Y").toList), none, none⟩ = true) :=
  ⟨by decide,
    (c6_amended_default_version ⟨some (("vX.Y").toList), none, none⟩).2
      (("vX.Y").toList) rfl (by decide)⟩

/-- Claim C7: any bump type other than major, minor or patch makes
bump_version fail with the invalid-bump-type error; in this embedding
an error result carries no successor state, so no file is written. -/
theorem c7_invalid_bump_type (s : FsState) (t : List Char) (e : Option (List Char))
    (d : List Char) (h1 : t ≠ ("major").toList) (h2 : t ≠ ("minor").toList)
    (h3 : t ≠ ("patch").toList) :
    bump_version s t e d = Except.error (BumpErr.invalidBumpType t) := by
  unfold bump_version
  rw [if_neg h1, if_neg h2, if_neg h3]

/-- Witness for C7 at the concrete invalid bump type Major. -/
theorem c7_witness :
    bump_version ⟨some (("1.2.3\n").toList), none, none⟩ (("Major").toList) none [] =
      Except.error (BumpErr.invalidBumpType (("Major").toList)) :=
  c7_invalid_bump_type ⟨some (("1.2.3\n").toList), none, none⟩ (("Major").toList) none []
    (by decide) (by decide) (by decide)

/-- Claim C9: with a missing VERSION file, or with content whose
stripped text does not match the strict pattern, the current version is
the default 0.1.0, and bumping minor succeeds with (0, 2, 0),
overwriting the VERSION file with the rendered new triple. -/
theorem c9_default_base_bump (s : FsState) (d : List Char)
    (h : s.versionFile = none ∨
      ∃ content, s.versionFile = some content ∧ matchVersion (stripText content) = none) :
    get_current_version s = (0, 1, 0) ∧
    ∃ s1, bump_version s (("minor").toList) none d = Except.ok (s1, (0, 2, 0)) ∧
      s1.versionFile = some (("0.2.0\n").toList) := by
  have hg : get_current_version s = (0, 1, 0) := by
    rcases h with h | ⟨content, hc, hm⟩
    · simp [get_current_version, h]
    · simp [get_current_version, hc, hm]
  have h1 : (get_current_version s).1 = 0 := by rw [hg]
  have h2 : (get_current_version s).2.1 = 1 := by rw [hg]
  refine ⟨hg, applyChangelog (set_version s 0 2 0) 0 2 0 d none, ?_, ?_⟩
  · rw [bump_version_minor, h1, h2]
  · rw [applyChangelog_versionFile, set_version_versionFile]
    decide

/-- Witness for C9 at a concrete garbled VERSION file. -/
theorem c9_witness :
    matchVersion (stripText (("not-a-version").toList)) = none ∧
    (get_current_version ⟨some (("not-a-version").toList), none, none⟩ = (0, 1, 0) ∧
      ∃ s1, bump_version ⟨some (("not-a-version").toList), none, none⟩ (("minor").toList)
          none [] = Except.ok (s1, (0, 2, 0)) ∧
        s1.versionFile = some (("0.2.0\n").toList)) :=
  ⟨by decide, c9_default_base_bump ⟨some (("not-a-version").toList), none, none⟩ []
    (Or.inr ⟨(("not-a-version").toList), rfl, by decide⟩)⟩

/-- Claim C8: the set command accepts 1.2.3 (persisting it to the
VERSION file) and rejects 1.2, 1.2.3.4, v1.2.3 and the empty argument,
each with an error exit and, in this embedding, no successor state and
hence no file mutation. -/
theorem c8_cli_set_validation (s : FsState) :
    (cli_set s (some (("1.2.3").toList)) = Except.ok (set_version s 1 2 3) ∧
      (set_version s 1 2 3).versionFile = some (("1.2.3\n").toList)) ∧
    cli_set s (some (("1.2").toList)) = Except.error CliErr.badFormat ∧
    cli_set s (some (("1.2.3.4").toList)) = Except.error CliErr.badFormat ∧
    cli_set s (some (("v1.2.3").toList)) = Except.error CliErr.badFormat ∧
    cli_set s (some ([] : List Char)) = Except.error CliErr.missingArg := by
  have hm1 : matchVersion (("1.2.3").toList) = some (1, 2, 3) := by decide
  have hm2 : matchVersion (("1.2").toList) = none := by decide
  have hm3 : matchVersion (("1.2.3.4").toList) = none := by decide
  have hm4 : matchVersion (("v1.2.3").toList) = none := by decide
  have hne1 : ¬ (("1.2.3").toList = ([] : List Char)) := by decide
  have hne2 : ¬ (("1.2").toList = ([] : List Char)) := by decide
  have hne3 : ¬ (("1.2.3.4").toList = ([] : List Char)) := by decide
  have hne4 : ¬ (("v1.2.3").toList = ([] : List Char)) := by decide
  refine ⟨⟨?_, ?_⟩, ?_, ?_, ?_, ?_⟩
  · simp only [cli_set, if_neg hne1, hm1]
  · rw [set_version_versionFile]
    decide
  · simp only [cli_set, if_neg hne2, hm2]
  · simp only [cli_set, if_neg hne3, hm3]
  · simp only [cli_set, if_neg hne4, hm4]
  · simp [cli_set]

/- ### Claims about changelog insertion -/

/-- A document in which the substring of the unreleased heading first
occurs in the middle of a line, before the actual heading line; used to
refute the literal reading of claim C1. -/
def docC1 : List Char :=
  ("x ## [Unreleased] y\n## [Unreleased]\n\n## [1.0.0] - 2024-01-01\nold\n").toList

/-- Claim C1 counterexample: docC1 contains the unreleased heading as a
line (at index 20, right after a newline) followed later by a released
section heading (at index 37), so the claim applies to it; the claim
forces the output to start with the 35 bytes of docC1 up to and
including the heading (everything before the heading unchanged, the new
block strictly after the heading). The code instead splits at the first
substring occurrence, inside the first line, and inserts the block
before the heading line, so the output does not start with those bytes. -/
theorem c1_counterexample :
    beginsWith unreleasedHeading (docC1.drop 20) = true ∧
    beginsWith (("## [1.0.0]").toList) (docC1.drop 37) = true ∧
    beginsWith (docC1.take 35)
      (update_changelog_text (some docC1) (("1.1.0").toList) (("2026-10-12").toList)
        (("msg").toList)) = false := by
  decide

/-- Claim C1 as amended: for every document of the shape pre, then the
unreleased heading, then mid, then a newline-and-section-start, then
post, where the shown heading is the first occurrence of its substring
in the document and the shown section start is the first occurrence
after the heading, insertion places the new block exactly between mid
and the section start, and pre, the heading, mid and everything from
the section start on are copied through byte-identically. -/
theorem c1_amended_local_insertion (pre mid post vstr date entry : List Char)
    (h1 : ∀ k, k < pre.length →
      beginsWith unreleasedHeading
        ((pre ++ unreleasedHeading ++ mid ++ nextSectionPat ++ post).drop k) = false)
    (h2 : ∀ k, k < mid.length →
      beginsWith nextSectionPat ((mid ++ nextSectionPat ++ post).drop k) = false) :
    update_changelog_text (some (pre ++ unreleasedHeading ++ mid ++ nextSectionPat ++ post))
        vstr date entry
      = pre ++ unreleasedHeading ++ mid ++ newEntryText vstr date entry
          ++ nextSectionPat ++ post := by
  have hu : unreleasedHeading ≠ [] := by decide
  have hn : nextSectionPat ≠ [] := by decide
  simp only [List.append_assoc] at h1 h2 ⊢
  have hsplit := splitFirst_first unreleasedHeading pre (mid ++ (nextSectionPat ++ post)) hu h1
  have hfind := findIdx_first nextSectionPat mid post hn h2
  simp only [update_changelog_text, hsplit, hfind]
  rw [take_len_append mid (nextSectionPat ++ post), drop_len_append mid (nextSectionPat ++ post)]
  simp [List.append_assoc]

/-- A realistic prefix, middle and suffix for the C1 witness. -/
def preW : List Char := ("# Changelog\n\n").toList

def midW : List Char := ("\n\nnothing yet\n").toList

def postW : List Char := ("1.0.0] - 2024-01-01\nold\n").toList

/-- Witness for the amended C1 on a concrete well-formed changelog. -/
theorem c1_witness :
    (∀ k, k < preW.length →
      beginsWith unreleasedHeading
        ((preW ++ unreleasedHeading ++ midW ++ nextSectionPat ++ postW).drop k) = false) ∧
    update_changelog_text (some (preW ++ unreleasedHeading ++ midW ++ nextSectionPat ++ postW))
        (("1.1.0").toList) (("2026-10-12").toList) (("msg").toList)
      = preW ++ unreleasedHeading ++ midW
          ++ newEntryText (("1.1.0").toList) (("2026-10-12").toList) (("msg").toList)
          ++ nextSectionPat ++ postW :=
  ⟨by decide, c1_amended_local_insertion preW midW postW (("1.1.0").toList)
    (("2026-10-12").toList) (("msg").toList) (by decide) (by decide)⟩

/-- A changelog without an unreleased section whose very first line is
a released-section heading. -/
def docC2 : List Char := ("## [1.0.0] - 2024-01-01\n\n### Changed\n- old\n").toList

/-- Claim C2, evaluated at the failing input: the first line of docC2
is the first (and only) line starting with two hashes and containing a
bracket, so the claim demands insertion immediately before it; the code
finds it at index zero, but the zero sentinel in the insertion branch
(insert only when the found index is positive) conflates index zero
with not-found, and the new block is appended at the end of the file
instead, after the released section, contradicting both the claim and
the codes own add-at-the-beginning comment. -/
theorem c2_first_line_heading_appends :
    firstHeadingIdx (splitOnNl docC2) = some 0 ∧
    update_changelog_text (some docC2) (("1.1.0").toList) (("2026-10-12").toList)
        (("fix").toList)
      = docC2 ++ newEntryText (("1.1.0").toList) (("2026-10-12").toList) (("fix").toList) := by
  decide

/-- Claim C3 counterexample: calling update_changelog with an empty
message on a state with no changelog file creates the file (the
changelog entry of the resulting state is not none), so the call is not
rejected before mutation; update_changelog performs no emptiness check
at all. -/
theorem c3_counterexample :
    (update_changelog ⟨none, none, none⟩ 1 2 3 (("2026-10-12").toList) []).changelogFile
      ≠ none := by
  decide

/-- Claim C3 as amended: the empty-message guard lives in bump_version,
not update_changelog, and it silently skips the changelog step rather
than raising: for any valid bump type and an absent or empty message,
bump_version succeeds and leaves the changelog file exactly as it was
(the VERSION file is still rewritten). -/
theorem c3_amended_bump_skips_changelog (s : FsState) (t d : List Char)
    (ht : t = ("major").toList ∨ t = ("minor").toList ∨ t = ("patch").toList)
    (e : Option (List Char)) (he : e = none ∨ e = some []) :
    ∃ s1 v, bump_version s t e d = Except.ok (s1, v) ∧
      s1.changelogFile = s.changelogFile := by
  rcases ht with ht | ht | ht <;> subst ht
  · exact ⟨_, _, bump_version_major s e d, by
      rw [applyChangelog_empty _ _ _ _ _ _ he, set_version_changelogFile]⟩
  · exact ⟨_, _, bump_version_minor s e d, by
      rw [applyChangelog_empty _ _ _ _ _ _ he, set_version_changelogFile]⟩
  · exact ⟨_, _, bump_version_patch s e d, by
      rw [applyChangelog_empty _ _ _ _ _ _ he, set_version_changelogFile]⟩

/-- Witness for the amended C3: a patch bump with an empty message on a
state that has both a VERSION file and a changelog. -/
theorem c3_witness :
    ((("patch").toList = ("major").toList ∨ ("patch").toList = ("minor").toList ∨
        ("patch").toList = ("patch").toList)) ∧
    ∃ s1 v, bump_version ⟨some (("1.0.0\n").toList), some (("# Changelog\n").toList), none⟩
        (("patch").toList) (some []) [] = Except.ok (s1, v) ∧
      s1.changelogFile = some (("# Changelog\n").toList) :=
  ⟨Or.inr (Or.inr rfl),
    c3_amended_bump_skips_changelog
      ⟨some (("1.0.0\n").toList), some (("# Changelog\n").toList), none⟩
      (("patch").toList) [] (Or.inr (Or.inr rfl)) (some []) (Or.inr rfl)⟩

/- ### Claim about the pyproject.toml rewrite -/

/-- Claim C10: when pyproject.toml exists and consists of two
version-field occurrences separated by arbitrary non-matching text,
set_version rewrites both occurrences to the new version and preserves
every other byte. The three scanning hypotheses state that no match of
the pattern starts inside A, B or C. -/
theorem c10_pyproject_rewrites_all_matches (s : FsState) (a b c : Nat)
    (A B C p1 q1 i1 p2 q2 i2 : List Char)
    (hp1 : ∀ x ∈ p1, isPySpace x = true) (hq1 : ∀ x ∈ q1, isPySpace x = true)
    (hi1 : ∀ x ∈ i1, notQuote x = true)
    (hp2 : ∀ x ∈ p2, isPySpace x = true) (hq2 : ∀ x ∈ q2, isPySpace x = true)
    (hi2 : ∀ x ∈ i2, notQuote x = true)
    (hA : ∀ k, k < A.length →
      matchVF ((A ++ vMatch p1 q1 i1 ++ B ++ vMatch p2 q2 i2 ++ C).drop k) = none)
    (hB : ∀ k, k < B.length →
      matchVF ((B ++ vMatch p2 q2 i2 ++ C).drop k) = none)
    (hC : ∀ k, k < C.length → matchVF (C.drop k) = none)
    (hpy : s.pyprojectFile = some (A ++ vMatch p1 q1 i1 ++ B ++ vMatch p2 q2 i2 ++ C)) :
    (set_version s a b c).pyprojectFile =
      some (A ++ vRepl (renderVersion a b c) ++ B ++ vRepl (renderVersion a b c) ++ C) := by
  simp only [List.append_assoc] at hA hB hpy
  have e1 : subVF (vRepl (renderVersion a b c))
      (A ++ (vMatch p1 q1 i1 ++ (B ++ (vMatch p2 q2 i2 ++ C))))
      = A ++ (vRepl (renderVersion a b c) ++ (B ++ (vRepl (renderVersion a b c) ++ C))) := by
    rw [subVF_skip _ A _ hA,
      subVF_match _ _ _ (matchVF_vMatch p1 q1 i1 _ hp1 hq1 hi1),
      subVF_skip _ B _ hB,
      subVF_match _ _ _ (matchVF_vMatch p2 q2 i2 _ hp2 hq2 hi2),
      subVF_id _ C hC]
  simp only [set_version, hpy, e1, List.append_assoc]

/-- The pieces of a small pyproject.toml with a project version field
and a second version field in a tool section. -/
def pyA : List Char := ("[project]\nname = \"demo\"\n").toList

def pyB : List Char := ("\n[tool.demo]\n").toList

def pyC : List Char := ['\n']

def pyDoc : List Char :=
  pyA ++ vMatch [' '] [' '] (("0.1.0").toList) ++ pyB ++ vMatch [] [] (("9").toList) ++ pyC

/-- Witness for C10 on the concrete two-field pyproject.toml. -/
theorem c10_witness :
    (∀ k, k < pyA.length → matchVF (pyDoc.drop k) = none) ∧
    (set_version ⟨none, none, some pyDoc⟩ 9 9 9).pyprojectFile =
      some (pyA ++ vRepl (renderVersion 9 9 9) ++ pyB ++ vRepl (renderVersion 9 9 9) ++ pyC) :=
  ⟨by decide,
    c10_pyproject_rewrites_all_matches ⟨none, none, some pyDoc⟩ 9 9 9 pyA pyB pyC
      [' '] [' '] (("0.1.0").toList) [] [] (("9").toList)
      (by decide) (by decide) (by decide) (by decide) (by decide) (by decide)
      (by decide) (by decide) (by decide) rfl⟩

end VersionManager
